import Mathlib

/-!
Verification of the sales-analytics pipeline.

The development shallowly embeds the data-processing pipeline:
`parse_transactions` and `validate_and_filter` (file_handler.py), the
aggregation passes (data_processor.py) and the enrichment merger
(api_handler.py).  Python `int` is modelled by `Int`, Python `float` by
`ℚ` (exact rational arithmetic), Python `dict` (insertion-ordered) by an
association list updated in place, and Python's stable `sorted` by a
stable insertion sort.  Python string primitives (`strip`, `split`,
`replace`, `startswith`, numeric conversion) are modelled by structural
recursion over `List Char` so that every definition evaluates inside the
kernel.
-/

namespace SalesAnalytics

/-- Whitespace for Python `str.strip()` (the forms occurring in text
lines). -/
def isPySpace (c : Char) : Bool :=
  c = ' ' || c = '\t' || c = '\n' || c = '\r'

/-- Python `str.strip()`: drop leading and trailing whitespace. -/
def pyStrip (l : List Char) : List Char :=
  ((l.dropWhile isPySpace).reverse.dropWhile isPySpace).reverse

/-- Python `s.split(sep)` for a one-character separator: split at every
occurrence, keeping empty parts; `"".split(sep) = [""]`. -/
def splitChar (sep : Char) : List Char → List (List Char)
  | [] => [[]]
  | c :: cs =>
    match splitChar sep cs with
    | [] => if c = sep then [[], []] else [[c]]
    | p :: ps => if c = sep then [] :: p :: ps else (c :: p) :: ps

/-- Python `str.startswith(p)` for a one-character p. -/
def startsWithChar (c : Char) : List Char → Bool
  | [] => false
  | c' :: _ => c' = c

/-- Digit-string to number: `some` exactly when the string is non-empty
and all digits (the acceptance condition of Python `int`/`isdigit` on
ASCII input). -/
def digitsToNat? (l : List Char) : Option Nat :=
  if l ≠ [] ∧ l.all Char.isDigit then
    some (l.foldl (fun a c => a * 10 + (c.toNat - 48)) 0)
  else none

/-- Python `int(s)` on an already whitespace-stripped, comma-stripped
string: an optional sign followed by one or more digits. -/
def toIntPy : List Char → Option Int
  | '-' :: rest => (digitsToNat? rest).map (fun n => -(n : Int))
  | '+' :: rest => (digitsToNat? rest).map (fun n => (n : Int))
  | l => (digitsToNat? l).map (fun n => (n : Int))

/-- Core of Python `float(s)` for the unsigned decimal forms
`digits`, `digits.digits`, `digits.`, `.digits` (the forms occurring in
this pipe-delimited data; exponents and special values are out of
scope). -/
def decToRat? (l : List Char) : Option ℚ :=
  match splitChar '.' l with
  | [a] => (digitsToNat? a).map (fun n => (n : ℚ))
  | [a, b] =>
    if a = [] ∧ b = [] then none
    else
      match (if a = [] then some 0 else digitsToNat? a),
            (if b = [] then some 0 else digitsToNat? b) with
      | some i, some f => some ((i : ℚ) + (f : ℚ) / (10 : ℚ) ^ b.length)
      | _, _ => none
  | _ => none

/-- Python `float(s)` with an optional leading sign. -/
def toRatPy : List Char → Option ℚ
  | '-' :: rest => (decToRat? rest).map (fun q => -q)
  | '+' :: rest => decToRat? rest
  | l => decToRat? l

/-- A parsed transaction record, the element type produced by
`parse_transactions`: `Quantity` is a Python `int` (here `Int`),
`UnitPrice` a Python `float` (here `ℚ`). -/
structure Transaction where
  transactionID : String
  date : String
  productID : String
  productName : String
  quantity : Int
  unitPrice : ℚ
  customerID : String
  region : String
deriving DecidableEq

/-- One iteration of the `parse_transactions` loop of
`file_handler.py`: blank lines are skipped, the line is split on `|`,
any field count other than 8 drops the line, fields are trimmed, commas
in the product name become spaces, commas in the numeric fields are
removed, and a failed numeric conversion drops the line. -/
def parseLine (line : String) : Option Transaction :=
  if pyStrip line.data = [] then none
  else
    match splitChar '|' (pyStrip line.data) with
    | [p0, p1, p2, p3, p4, p5, p6, p7] =>
      match toIntPy ((pyStrip p4).filter (fun c => c ≠ ',')),
            toRatPy ((pyStrip p5).filter (fun c => c ≠ ',')) with
      | some q, some up =>
        some { transactionID := ⟨pyStrip p0⟩, date := ⟨pyStrip p1⟩,
               productID := ⟨pyStrip p2⟩,
               productName :=
                 ⟨pyStrip ((pyStrip p3).map (fun c => if c = ',' then ' ' else c))⟩,
               quantity := q, unitPrice := up,
               customerID := ⟨pyStrip p6⟩, region := ⟨pyStrip p7⟩ }
      | _, _ => none
    | _ => none

/-- Model of `parse_transactions` of `file_handler.py`: the loop with `continue`
on malformed lines is a `filterMap` of the per-line parser. -/
def parse_transactions (raw_lines : List String) : List Transaction :=
  raw_lines.filterMap parseLine

/-! ## Validation and filtering (`validate_and_filter`, file_handler.py) -/

/-- The per-record validation of `validate_and_filter`, checks in source
order with first-failure-wins: required fields present and non-blank,
ID format checks, numeric conversion, positivity.  On a typed record
the structure fields are always present, `str(Quantity)`/`str(UnitPrice)`
are never blank and `int()`/`float()` never fail, so those source checks
are identically true and do not appear. -/
def isValidTx (tx : Transaction) : Bool :=
  !(pyStrip tx.transactionID.data).isEmpty &&
  !(pyStrip tx.date.data).isEmpty &&
  !(pyStrip tx.productID.data).isEmpty &&
  !(pyStrip tx.productName.data).isEmpty &&
  !(pyStrip tx.customerID.data).isEmpty &&
  !(pyStrip tx.region.data).isEmpty &&
  startsWithChar 'T' tx.transactionID.data &&
  startsWithChar 'P' tx.productID.data &&
  startsWithChar 'C' tx.customerID.data &&
  decide (0 < tx.quantity) && decide (0 < tx.unitPrice)

/-- The validation loop of `validate_and_filter`: collect valid records
in input order, count every failing record once. -/
def validatePhase : List Transaction → List Transaction × Nat
  | [] => ([], 0)
  | tx :: rest =>
    let r := validatePhase rest
    if isValidTx tx then (tx :: r.1, r.2) else (r.1, r.2 + 1)

/-- The `filter_summary` dictionary of `validate_and_filter`. -/
structure FilterSummary where
  total_input : Nat
  invalid : Nat
  filtered_by_region : Nat
  filtered_by_amount : Nat
  final_count : Nat
deriving DecidableEq

/-- The `amount_ok` closure of `validate_and_filter`: below a supplied
minimum or above a supplied maximum fails, otherwise the record passes. -/
def amount_ok (min_amount max_amount : Option ℚ) (t : Transaction) : Bool :=
  let amt := (t.quantity : ℚ) * t.unitPrice
  if (match min_amount with
      | some m => decide (amt < m)
      | none => false) then false
  else if (match max_amount with
      | some m => decide (m < amt)
      | none => false) then false
  else true

/-- The region-filter stage of `validate_and_filter`: Python
`if region:` is false for `None` and for the empty string; otherwise
keep exact matches and count the removals. -/
def regionStage (valid : List Transaction) : Option String → List Transaction × Nat
  | some r =>
    if r = "" then (valid, 0)
    else
      (valid.filter (fun (t : Transaction) => t.region == r),
       valid.length - (valid.filter (fun (t : Transaction) => t.region == r)).length)
  | none => (valid, 0)

/-- The amount-filter stage of `validate_and_filter`: applied when at
least one bound is supplied, counting the removals. -/
def amountStage (f1 : List Transaction) (min_amount max_amount : Option ℚ) :
    List Transaction × Nat :=
  if min_amount.isSome || max_amount.isSome then
    (f1.filter (amount_ok min_amount max_amount),
     f1.length - (f1.filter (amount_ok min_amount max_amount)).length)
  else (f1, 0)

/-- Model of `validate_and_filter` of file_handler.py (printing is I/O and does
not affect the returned value): validation, optional region filter,
optional amount filter, with removal counts and the summary. -/
def validate_and_filter (transactions : List Transaction)
    (region : Option String) (min_amount max_amount : Option ℚ) :
    List Transaction × Nat × FilterSummary :=
  let vp := validatePhase transactions
  let s1 := regionStage vp.1 region
  let s2 := amountStage s1.1 min_amount max_amount
  (s2.1, vp.2,
    { total_input := transactions.length, invalid := vp.2,
      filtered_by_region := s1.2,
      filtered_by_amount := s2.2,
      final_count := s2.1.length })

/-! ## Grouping machinery shared by the aggregation passes -/

/-- First-match lookup in an association list (`dict` access). -/
def lookupA {κ V : Type} [DecidableEq κ] (k : κ) : List (κ × V) → Option V
  | [] => none
  | (k', v) :: rest => if k' = k then some v else lookupA k rest

/-- In-place update of an insertion-ordered association list, the model
of `if k not in d: d[k] = v0` followed by a mutation of `d[k]` on a
Python dict: an existing key keeps its position, a new key is appended. -/
def updAssoc {V : Type} (k : String) (upd : V → V) (v0 : V) :
    List (String × V) → List (String × V)
  | [] => [(k, upd v0)]
  | (k', v) :: rest =>
    if k' = k then (k', upd v) :: rest else (k', v) :: updAssoc k upd v0 rest

/-- The shared shape of the grouping loops of data_processor.py: trim
the key field, skip records with a blank key, update the
insertion-ordered dict at that key. -/
def foldGroup {V : Type} (key : Transaction → String)
    (upd : Transaction → V → V) (v0 : V) :
    List Transaction → List (String × V) → List (String × V)
  | [], acc => acc
  | tx :: rest, acc =>
    let k := key tx
    if k = "" then foldGroup key upd v0 rest acc
    else foldGroup key upd v0 rest (updAssoc k (upd tx) v0 acc)

/-! ## Stable sort (Python `sorted` / `list.sort`) -/

/-- Insert for the stable sort: `x` (a later element of the input)
passes every `y` with `gt y x` and stops before the first `y` with
`¬ gt y x`, so elements with equal keys keep their original order,
matching Python's stable sort. -/
def insertSorted {α : Type} (gt : α → α → Bool) (x : α) : List α → List α
  | [] => [x]
  | y :: ys => if gt y x then y :: insertSorted gt x ys else x :: y :: ys

/-- Stable sort placing elements that are strictly greater under `gt`
first; `gt a b = (key b < key a)` sorts descending by key,
`gt a b = (key a < key b)` ascending. -/
def sortBy {α : Type} (gt : α → α → Bool) : List α → List α
  | [] => []
  | x :: xs => insertSorted gt x (sortBy gt xs)

/-! ## Aggregation passes (data_processor.py) -/

/-- The derived amount `Quantity * UnitPrice` of a record. -/
def amountOf (tx : Transaction) : ℚ := (tx.quantity : ℚ) * tx.unitPrice

/-- Trimmed `Region` field, the region grouping key. -/
def regionKey (tx : Transaction) : String := ⟨pyStrip tx.region.data⟩

/-- Trimmed `ProductName` field, the product grouping key. -/
def prodKey (tx : Transaction) : String := ⟨pyStrip tx.productName.data⟩

/-- Trimmed `Date` field, the date grouping key. -/
def dateKey (tx : Transaction) : String := ⟨pyStrip tx.date.data⟩

/-- Model of `calculate_total_revenue`: left fold adding `Quantity * UnitPrice`
(the defensive try/except never fires on typed records). -/
def calculate_total_revenue (transactions : List Transaction) : ℚ :=
  transactions.foldl (fun total tx => total + amountOf tx) 0

/-- Accumulator of phase 1 of `region_wise_sales`. -/
structure RegionAcc where
  total_sales : ℚ
  transaction_count : Nat
deriving DecidableEq

/-- One entry of the result of `region_wise_sales`. -/
structure RegionStat where
  total_sales : ℚ
  transaction_count : Nat
  percentage : ℚ
deriving DecidableEq

/-- The per-record dict mutation of `region_wise_sales`:
`total_sales += amount; transaction_count += 1`. -/
def regionUpd (tx : Transaction) (v : RegionAcc) : RegionAcc :=
  { total_sales := v.total_sales + amountOf tx,
    transaction_count := v.transaction_count + 1 }

/-- Phase 1 of `region_wise_sales`: accumulate per-region totals and the
grand total in one pass; records with a blank region are skipped before
touching the grand total. -/
def regionPass : List Transaction → List (String × RegionAcc) → ℚ →
    List (String × RegionAcc) × ℚ
  | [], acc, g => (acc, g)
  | tx :: rest, acc, g =>
    if regionKey tx = "" then regionPass rest acc g
    else
      regionPass rest
        (updAssoc (regionKey tx) (regionUpd tx)
          { total_sales := 0, transaction_count := 0 } acc)
        (g + amountOf tx)

/-- Model of Python `round(x, 2)`: round to 2 decimal places.  (`round` resolves exact
half-way cases upward while Python uses half-to-even; both stay within
1/200 of the argument, the only property relied on.) -/
def round2 (q : ℚ) : ℚ := (round (q * 100) : ℚ) / 100

/-- Model of `region_wise_sales` of data_processor.py: totals pass, percentage
pass (rounded to 2 decimals when the grand total is positive, else 0),
then stable sort by `total_sales` descending. -/
def region_wise_sales (transactions : List Transaction) :
    List (String × RegionStat) :=
  sortBy (fun a b => decide (b.2.total_sales < a.2.total_sales))
    ((regionPass transactions [] 0).1.map (fun p =>
      (p.1, { total_sales := p.2.total_sales,
              transaction_count := p.2.transaction_count,
              percentage := if 0 < (regionPass transactions [] 0).2
                then round2 (p.2.total_sales / (regionPass transactions [] 0).2 * 100)
                else 0 : RegionStat })))

/-- Accumulator of the product grouping. -/
structure ProdAcc where
  total_qty : Int
  total_revenue : ℚ
deriving DecidableEq

/-- The per-record dict mutation shared by `top_selling_products` and
`low_performing_products`: `total_qty += qty; total_revenue += revenue`. -/
def prodUpd (tx : Transaction) (v : ProdAcc) : ProdAcc :=
  { total_qty := v.total_qty + tx.quantity,
    total_revenue := v.total_revenue + amountOf tx }

/-- The grouping pass shared verbatim by `top_selling_products` and
`low_performing_products`: per trimmed product name, total quantity and
total revenue; blank names are skipped. -/
def productPass (transactions : List Transaction) : List (String × ProdAcc) :=
  foldGroup prodKey prodUpd { total_qty := 0, total_revenue := 0 } transactions []

/-- Python tuple comparison `(a.qty, a.rev) > (b.qty, b.rev)`, the
descending sort key of `top_selling_products`. -/
def gtQtyRev (a b : String × Int × ℚ) : Bool :=
  decide (b.2.1 < a.2.1) || (decide (a.2.1 = b.2.1) && decide (b.2.2 < a.2.2))

/-- Model of `top_selling_products` of data_processor.py: group, project to
`(name, qty, revenue)` triples, stable sort by `(qty, revenue)`
descending, take the first `n`. -/
def top_selling_products (transactions : List Transaction) (n : Nat) :
    List (String × Int × ℚ) :=
  let result := (productPass transactions).map
    (fun p => (p.1, p.2.total_qty, p.2.total_revenue))
  (sortBy gtQtyRev result).take n

/-- Python tuple comparison `(a.qty, a.rev) < (b.qty, b.rev)`, the
ascending sort key of `low_performing_products`. -/
def ltQtyRev (a b : String × Int × ℚ) : Bool :=
  decide (a.2.1 < b.2.1) || (decide (a.2.1 = b.2.1) && decide (a.2.2 < b.2.2))

/-- Model of `low_performing_products` of data_processor.py: group, keep products
with total quantity strictly below the threshold, stable sort by
`(qty, revenue)` ascending. -/
def low_performing_products (transactions : List Transaction) (threshold : Int) :
    List (String × Int × ℚ) :=
  let low := (productPass transactions).filterMap (fun p =>
    if p.2.total_qty < threshold then some (p.1, p.2.total_qty, p.2.total_revenue)
    else none)
  sortBy ltQtyRev low

/-- Accumulator of the daily grouping in `find_peak_sales_day`. -/
structure DayAcc where
  revenue : ℚ
  count : Nat
deriving DecidableEq

/-- The per-record dict mutation of `find_peak_sales_day`:
`revenue += revenue; count += 1`. -/
def dayUpd (tx : Transaction) (v : DayAcc) : DayAcc :=
  { revenue := v.revenue + amountOf tx, count := v.count + 1 }

/-- The grouping loop of `find_peak_sales_day`: per trimmed date, total
revenue and record count; blank dates are skipped. -/
def dailyTotals (transactions : List Transaction) : List (String × DayAcc) :=
  foldGroup dateKey dayUpd { revenue := 0, count := 0 } transactions []

/-- Python `max(items, key=revenue)`: left fold keeping the current
maximum and replacing it only on a strictly greater key, so the first
maximum in iteration order wins; `none` exactly on the empty list. -/
def pickMaxRev : List (String × DayAcc) → Option (String × DayAcc)
  | [] => none
  | x :: xs =>
    some (xs.foldl (fun best y => if best.2.revenue < y.2.revenue then y else best) x)

/-- Model of `find_peak_sales_day` of data_processor.py: group by date, return
the sentinel `(None, 0.0, 0)` when the grouping is empty, otherwise the
first date of maximal revenue with its revenue and count. -/
def find_peak_sales_day (transactions : List Transaction) :
    Option String × ℚ × Nat :=
  match pickMaxRev (dailyTotals transactions) with
  | none => (none, 0, 0)
  | some p => (some p.1, p.2.revenue, p.2.count)

/-! ## Enrichment (api_handler.py) -/

/-- One value of the product mapping built by `create_product_mapping`;
each field comes from `dict.get` and may be absent. -/
structure ApiInfo where
  title : Option String
  category : Option String
  brand : Option String
  rating : Option ℚ
deriving DecidableEq

/-- An enriched transaction: the original record plus the four
`API_*` columns appended by `enrich_sales_data`. -/
structure Enriched where
  tx : Transaction
  apiCategory : Option String
  apiBrand : Option String
  apiRating : Option ℚ
  apiMatch : Bool
deriving DecidableEq

/-- Numeric-id extraction of `enrich_sales_data`: strip the record's
`ProductID`, require a leading `P` and a non-empty all-digit remainder
(`str.isdigit`), else no lookup key. -/
def numericId (product_id : String) : Option Nat :=
  match pyStrip product_id.data with
  | 'P' :: rest => digitsToNat? rest
  | _ => none

/-- Per-record body of `enrich_sales_data` (api_handler.py): copy the
record, default the enrichment fields to null / no-match, fill them from
the mapping on a hit.  The defensive catch-all of the source cannot fire
in the model. -/
def enrichOne (t : Transaction) (product_mapping : List (Nat × ApiInfo)) :
    Enriched :=
  match numericId t.productID with
  | some nid =>
    match lookupA nid product_mapping with
    | some api_info =>
      { tx := t, apiCategory := api_info.category, apiBrand := api_info.brand,
        apiRating := api_info.rating, apiMatch := true }
    | none =>
      { tx := t, apiCategory := none, apiBrand := none, apiRating := none,
        apiMatch := false }
  | none =>
    { tx := t, apiCategory := none, apiBrand := none, apiRating := none,
      apiMatch := false }

/-- Model of `enrich_sales_data` over the record list (the save call inside it is
file I/O, modelled separately by `saveEnrichedLines`). -/
def enrich_sales_data (transactions : List Transaction)
    (product_mapping : List (Nat × ApiInfo)) : List Enriched :=
  transactions.map (fun t => enrichOne t product_mapping)

/-! ## Saving the enriched file (`save_enriched_data`, api_handler.py) -/

/-- Smallest exponent `k` with `d ∣ 10^k`, when one exists below 64
(every decimal fraction occurring in the data terminates). -/
def pow10Exp (d : Nat) : Option Nat :=
  (List.range 64).find? (fun k => 10 ^ k % d == 0)

/-- Python `str` of a float modelled as a terminating decimal rational:
integral values render with a trailing `.0`, others with their shortest
terminating decimal expansion; a non-terminating rational (impossible
for a parsed float) renders as a fraction. -/
def pyFloatStr (q : ℚ) : String :=
  let sign := if q < 0 then "-" else ""
  let n := q.num.natAbs
  let d := q.den
  if d = 1 then sign ++ toString n ++ ".0"
  else
    match pow10Exp d with
    | some k =>
      let scaled := n * 10 ^ k / d
      let ip := scaled / 10 ^ k
      let fp := scaled % 10 ^ k
      let fpStr := toString fp
      sign ++ toString ip ++ "." ++
        (String.mk (List.replicate (k - fpStr.length) '0') ++ fpStr)
    | none => sign ++ toString n ++ "/" ++ toString d

/-- Python `str` of a bool. -/
def pyBoolStr : Bool → String
  | true => "True"
  | false => "False"

/-- Rendering `str(value)` with `None` as the empty string, as in the
row loop of `save_enriched_data`. -/
def optStr {α : Type} (f : α → String) : Option α → String
  | none => ""
  | some x => f x

/-- The header row written by `save_enriched_data`. -/
def enrichedHeader : String :=
  "TransactionID|Date|ProductID|ProductName|Quantity|UnitPrice|CustomerID|Region|API_Category|API_Brand|API_Rating|API_Match"

/-- The 12 column values of one row of `save_enriched_data`. -/
def rowOf (e : Enriched) : List String :=
  [e.tx.transactionID, e.tx.date, e.tx.productID, e.tx.productName,
   toString e.tx.quantity, pyFloatStr e.tx.unitPrice, e.tx.customerID,
   e.tx.region, optStr id e.apiCategory, optStr id e.apiBrand,
   optStr pyFloatStr e.apiRating, pyBoolStr e.apiMatch]

/-- Python `"|".join`. -/
def joinPipe : List String → String
  | [] => ""
  | [s] => s
  | s :: rest => s ++ "|" ++ joinPipe rest

/-- The lines `save_enriched_data` writes (the file system is a
collaborator; the model returns the written lines): the 12-column header
followed by one pipe-joined row per record. -/
def saveEnrichedLines (enriched_transactions : List Enriched) : List String :=
  enrichedHeader :: enriched_transactions.map (fun e => joinPipe (rowOf e))

/-! ## Lemmas about the stable sort -/

theorem insertSorted_perm {α : Type} (gt : α → α → Bool) (x : α) :
    ∀ l : List α, (insertSorted gt x l).Perm (x :: l)
  | [] => List.Perm.refl _
  | y :: ys => by
    unfold insertSorted
    by_cases h : gt y x = true
    · rw [if_pos h]
      exact ((insertSorted_perm gt x ys).cons y).trans (List.Perm.swap x y ys)
    · rw [if_neg h]

theorem sortBy_perm {α : Type} (gt : α → α → Bool) :
    ∀ l : List α, (sortBy gt l).Perm l
  | [] => List.Perm.refl _
  | x :: xs => (insertSorted_perm gt x (sortBy gt xs)).trans ((sortBy_perm gt xs).cons x)

theorem pairwise_insertSorted {α : Type} (gt : α → α → Bool)
    (hA : ∀ a b, gt a b = true → gt b a = false)
    (hT : ∀ a b c, gt b a = false → gt c b = false → gt c a = false)
    (x : α) :
    ∀ l : List α, l.Pairwise (fun a b => gt b a = false) →
      (insertSorted gt x l).Pairwise (fun a b => gt b a = false)
  | [], _ => by simp [insertSorted]
  | y :: ys, h => by
    rw [List.pairwise_cons] at h
    unfold insertSorted
    by_cases hyx : gt y x = true
    · rw [if_pos hyx, List.pairwise_cons]
      refine ⟨fun z hz => ?_, pairwise_insertSorted gt hA hT x ys h.2⟩
      rcases List.mem_cons.1 (((insertSorted_perm gt x ys).mem_iff).1 hz) with rfl | hz1
      · exact hA y z hyx
      · exact h.1 z hz1
    · have hyx' : gt y x = false := by simpa using hyx
      rw [if_neg hyx, List.pairwise_cons]
      refine ⟨fun z hz => ?_, List.pairwise_cons.2 ⟨h.1, h.2⟩⟩
      rcases List.mem_cons.1 hz with rfl | hz1
      · exact hyx'
      · exact hT x y z hyx' (h.1 z hz1)

theorem pairwise_sortBy {α : Type} (gt : α → α → Bool)
    (hA : ∀ a b, gt a b = true → gt b a = false)
    (hT : ∀ a b c, gt b a = false → gt c b = false → gt c a = false) :
    ∀ l : List α, (sortBy gt l).Pairwise (fun a b => gt b a = false)
  | [] => List.Pairwise.nil
  | x :: xs =>
    pairwise_insertSorted gt hA hT x (sortBy gt xs) (pairwise_sortBy gt hA hT xs)

/-! ## Lemmas about association lists and grouping -/

theorem lookupA_updAssoc_self {V : Type} (k : String) (upd : V → V) (v0 : V) :
    ∀ l : List (String × V),
      lookupA k (updAssoc k upd v0 l) = some (upd ((lookupA k l).getD v0))
  | [] => by simp [updAssoc, lookupA]
  | (k', v) :: rest => by
    by_cases h : k' = k
    · subst h; simp [updAssoc, lookupA]
    · simp only [updAssoc, lookupA, if_neg h]
      exact lookupA_updAssoc_self k upd v0 rest

theorem lookupA_updAssoc_ne {V : Type} (k k' : String) (hne : ¬ k = k')
    (upd : V → V) (v0 : V) :
    ∀ l : List (String × V),
      lookupA k' (updAssoc k upd v0 l) = lookupA k' l
  | [] => by simp [updAssoc, lookupA, hne]
  | (k'', v) :: rest => by
    by_cases h : k'' = k
    · subst h
      simp [updAssoc, lookupA, hne]
    · by_cases h2 : k'' = k'
      · subst h2
        simp [updAssoc, lookupA, if_neg h]
      · simp [updAssoc, lookupA, if_neg h, h2,
          lookupA_updAssoc_ne k k' hne upd v0 rest]

theorem map_fst_updAssoc {V : Type} (k : String) (upd : V → V) (v0 : V) :
    ∀ l : List (String × V),
      (updAssoc k upd v0 l).map Prod.fst =
        if k ∈ l.map Prod.fst then l.map Prod.fst else l.map Prod.fst ++ [k]
  | [] => by simp [updAssoc]
  | (k', v) :: rest => by
    by_cases h : k' = k
    · subst h; simp [updAssoc]
    · have h' : ¬ k = k' := fun hh => h hh.symm
      simp only [updAssoc, if_neg h, List.map_cons, List.mem_cons, h',
        false_or, map_fst_updAssoc k upd v0 rest]
      by_cases hm : k ∈ rest.map Prod.fst <;> simp [hm]

theorem sum_map_updAssoc {V M : Type} [AddCommMonoid M] (f : V → M) (c : M)
    (k : String) (upd : V → V) (v0 : V)
    (hupd : ∀ v, f (upd v) = f v + c) (h0 : f v0 = 0) :
    ∀ l : List (String × V),
      ((updAssoc k upd v0 l).map (fun p => f p.2)).sum =
        (l.map (fun p => f p.2)).sum + c
  | [] => by simp [updAssoc, hupd, h0]
  | (k', v) :: rest => by
    by_cases h : k' = k
    · subst h
      simp only [updAssoc, if_pos rfl, List.map_cons, List.sum_cons, hupd,
        if_true, eq_self_iff_true]
      rw [add_right_comm]
    · simp only [updAssoc, if_neg h, List.map_cons, List.sum_cons,
        sum_map_updAssoc f c k upd v0 hupd h0 rest]
      rw [add_assoc]

/-- Left-fold application of the per-record updates of a group, used to
state what a grouped value accumulates to. -/
def applyTxs {V : Type} (upd : Transaction → V → V) (l : List Transaction) (v : V) : V :=
  l.foldl (fun v tx => upd tx v) v

theorem lookupA_foldGroup_some {V : Type} (key : Transaction → String)
    (upd : Transaction → V → V) (v0 : V) (k : String) (hk : ¬ k = "") :
    ∀ (ts : List Transaction) (acc : List (String × V)) (v : V),
      lookupA k acc = some v →
      lookupA k (foldGroup key upd v0 ts acc) =
        some (applyTxs upd (ts.filter (fun tx => key tx == k)) v)
  | [], acc, v, h => by simpa [foldGroup, applyTxs] using h
  | tx :: rest, acc, v, h => by
    by_cases hb : key tx = ""
    · have hfk : (key tx == k) = false := by
        rw [beq_eq_false_iff_ne, hb]
        exact fun e => hk e.symm
      simp only [foldGroup, if_pos hb, List.filter_cons, hfk, Bool.false_eq_true,
        if_false]
      exact lookupA_foldGroup_some key upd v0 k hk rest acc v h
    · by_cases hkk : key tx = k
      · have hfk : (key tx == k) = true := beq_iff_eq.2 hkk
        have hacc : lookupA k (updAssoc (key tx) (upd tx) v0 acc) = some (upd tx v) := by
          rw [hkk, lookupA_updAssoc_self, h]
          rfl
        simp only [foldGroup, if_neg hb, List.filter_cons, hfk, if_true]
        rw [lookupA_foldGroup_some key upd v0 k hk rest _ _ hacc]
        rfl
      · have hfk : (key tx == k) = false := beq_eq_false_iff_ne.2 hkk
        have hacc : lookupA k (updAssoc (key tx) (upd tx) v0 acc) = some v := by
          rw [lookupA_updAssoc_ne _ _ hkk, h]
        simp only [foldGroup, if_neg hb, List.filter_cons, hfk, Bool.false_eq_true,
          if_false]
        exact lookupA_foldGroup_some key upd v0 k hk rest _ _ hacc

theorem lookupA_foldGroup_none {V : Type} (key : Transaction → String)
    (upd : Transaction → V → V) (v0 : V) (k : String) (hk : ¬ k = "") :
    ∀ (ts : List Transaction) (acc : List (String × V)),
      lookupA k acc = none →
      lookupA k (foldGroup key upd v0 ts acc) =
        if (ts.filter (fun tx => key tx == k)).isEmpty then none
        else some (applyTxs upd (ts.filter (fun tx => key tx == k)) v0)
  | [], acc, h => by simpa [foldGroup, applyTxs] using h
  | tx :: rest, acc, h => by
    by_cases hb : key tx = ""
    · have hfk : (key tx == k) = false := by
        rw [beq_eq_false_iff_ne, hb]
        exact fun e => hk e.symm
      simp only [foldGroup, if_pos hb, List.filter_cons, hfk, Bool.false_eq_true,
        if_false]
      exact lookupA_foldGroup_none key upd v0 k hk rest acc h
    · by_cases hkk : key tx = k
      · have hfk : (key tx == k) = true := beq_iff_eq.2 hkk
        have hacc : lookupA k (updAssoc (key tx) (upd tx) v0 acc) = some (upd tx v0) := by
          rw [hkk, lookupA_updAssoc_self, h]
          rfl
        simp only [foldGroup, if_neg hb, List.filter_cons, hfk, if_true,
          List.isEmpty_cons]
        rw [lookupA_foldGroup_some key upd v0 k hk rest _ _ hacc]
        rfl
      · have hfk : (key tx == k) = false := beq_eq_false_iff_ne.2 hkk
        have hacc : lookupA k (updAssoc (key tx) (upd tx) v0 acc) = none := by
          rw [lookupA_updAssoc_ne _ _ hkk, h]
        simp only [foldGroup, if_neg hb, List.filter_cons, hfk, Bool.false_eq_true,
          if_false]
        exact lookupA_foldGroup_none key upd v0 k hk rest _ hacc

/-- The keys a run of the grouping loop appends: the non-blank,
not-yet-seen keys in first-occurrence order. -/
def newKeys (seen : List String) : List String → List String
  | [] => []
  | k :: ks => if k = "" ∨ k ∈ seen then newKeys seen ks else k :: newKeys (k :: seen) ks

theorem newKeys_congr (s1 s2 : List String) (h : ∀ x, x ∈ s1 ↔ x ∈ s2) :
    ∀ l, newKeys s1 l = newKeys s2 l
  | [] => rfl
  | k :: ks => by
    by_cases hc : k = "" ∨ k ∈ s1
    · have hc2 : k = "" ∨ k ∈ s2 := by
        rcases hc with h1 | h1
        · exact Or.inl h1
        · exact Or.inr ((h k).1 h1)
      simp only [newKeys, if_pos hc, if_pos hc2]
      exact newKeys_congr s1 s2 h ks
    · have hc2 : ¬ (k = "" ∨ k ∈ s2) := by
        intro hc2
        rcases hc2 with h1 | h1
        · exact hc (Or.inl h1)
        · exact hc (Or.inr ((h k).2 h1))
      simp only [newKeys, if_neg hc, if_neg hc2]
      rw [newKeys_congr (k :: s1) (k :: s2) (by intro x; simp [h x]) ks]

theorem map_fst_foldGroup {V : Type} (key : Transaction → String)
    (upd : Transaction → V → V) (v0 : V) :
    ∀ (ts : List Transaction) (acc : List (String × V)),
      (foldGroup key upd v0 ts acc).map Prod.fst =
        acc.map Prod.fst ++ newKeys (acc.map Prod.fst) (ts.map key)
  | [], acc => by simp [foldGroup, newKeys]
  | tx :: rest, acc => by
    by_cases hb : key tx = ""
    · simp only [foldGroup, if_pos hb, List.map_cons, newKeys, hb,
        if_pos (Or.inl rfl)]
      exact map_fst_foldGroup key upd v0 rest acc
    · by_cases hm : key tx ∈ acc.map Prod.fst
      · have hkeys : (updAssoc (key tx) (upd tx) v0 acc).map Prod.fst =
            acc.map Prod.fst := by
          rw [map_fst_updAssoc, if_pos hm]
        simp only [foldGroup, if_neg hb, List.map_cons, newKeys,
          if_pos (Or.inr hm)]
        rw [map_fst_foldGroup key upd v0 rest _, hkeys]
      · have hkeys : (updAssoc (key tx) (upd tx) v0 acc).map Prod.fst =
            acc.map Prod.fst ++ [key tx] := by
          rw [map_fst_updAssoc, if_neg hm]
        have hni : ¬ (key tx = "" ∨ key tx ∈ acc.map Prod.fst) := by
          intro hc; rcases hc with h1 | h1
          · exact hb h1
          · exact hm h1
        simp only [foldGroup, if_neg hb, List.map_cons, newKeys, if_neg hni]
        rw [map_fst_foldGroup key upd v0 rest _, hkeys,
          newKeys_congr (acc.map Prod.fst ++ [key tx]) (key tx :: acc.map Prod.fst)
            (by intro x; simp [or_comm]) (rest.map key)]
        simp

theorem nodup_seen_newKeys :
    ∀ (l seen : List String), seen.Nodup → (seen ++ newKeys seen l).Nodup
  | [], seen, h => by simpa [newKeys]
  | k :: ks, seen, h => by
    by_cases hc : k = "" ∨ k ∈ seen
    · simp only [newKeys, if_pos hc]
      exact nodup_seen_newKeys ks seen h
    · simp only [newKeys, if_neg hc]
      push_neg at hc
      have hrec : ((k :: seen) ++ newKeys (k :: seen) ks).Nodup :=
        nodup_seen_newKeys ks (k :: seen) (List.nodup_cons.2 ⟨hc.2, h⟩)
      exact List.perm_middle.symm.nodup hrec

theorem nodup_map_fst_foldGroup {V : Type} (key : Transaction → String)
    (upd : Transaction → V → V) (v0 : V) (ts : List Transaction) :
    ((foldGroup key upd v0 ts []).map Prod.fst).Nodup := by
  rw [map_fst_foldGroup]
  simpa using nodup_seen_newKeys (ts.map key) [] List.nodup_nil

theorem blank_not_mem_newKeys : ∀ (l seen : List String), "" ∉ newKeys seen l
  | [], _ => List.not_mem_nil _
  | k :: ks, seen => by
    by_cases hc : k = "" ∨ k ∈ seen
    · simp only [newKeys, if_pos hc]
      exact blank_not_mem_newKeys ks seen
    · simp only [newKeys, if_neg hc]
      intro hmem
      rcases List.mem_cons.1 hmem with h1 | h1
      · exact hc (Or.inl h1.symm)
      · exact blank_not_mem_newKeys ks (k :: seen) h1

theorem lookupA_eq_some_of_mem_nodup {κ V : Type} [DecidableEq κ] :
    ∀ (l : List (κ × V)), (l.map Prod.fst).Nodup →
      ∀ {k : κ} {v : V}, (k, v) ∈ l → lookupA k l = some v
  | [], _, _, _, h => absurd h (List.not_mem_nil _)
  | (k', v') :: rest, hnd, k, v, h => by
    rw [List.map_cons, List.nodup_cons] at hnd
    rcases List.mem_cons.1 h with heq | hmem
    · cases heq
      simp [lookupA]
    · have hk : ¬ k' = k := by
        intro e; subst e
        exact hnd.1 (List.mem_map.2 ⟨(k', v), hmem, rfl⟩)
      simp only [lookupA, if_neg hk]
      exact lookupA_eq_some_of_mem_nodup rest hnd.2 hmem

theorem mem_of_lookupA_eq_some {κ V : Type} [DecidableEq κ] :
    ∀ (l : List (κ × V)) (k : κ) (v : V), lookupA k l = some v → (k, v) ∈ l
  | [], k, v, h => by simp [lookupA] at h
  | (k', v') :: rest, k, v, h => by
    by_cases hk : k' = k
    · subst hk
      simp [lookupA] at h
      subst h
      exact List.mem_cons_self _ _
    · simp only [lookupA, if_neg hk] at h
      exact List.mem_cons_of_mem _ (mem_of_lookupA_eq_some rest k v h)

theorem lookupA_isSome_iff {κ V : Type} [DecidableEq κ] :
    ∀ (l : List (κ × V)) (k : κ), (lookupA k l).isSome = true ↔ k ∈ l.map Prod.fst
  | [], k => by simp [lookupA]
  | (k', v') :: rest, k => by
    by_cases hk : k' = k
    · subst hk
      simp [lookupA]
    · simp only [lookupA, if_neg hk, List.map_cons, List.mem_cons]
      rw [lookupA_isSome_iff rest k]
      constructor
      · exact fun h => Or.inr h
      · rintro (h | h)
        · exact absurd h.symm hk
        · exact h

theorem applyTxs_cons {V : Type} (upd : Transaction → V → V) (tx : Transaction)
    (l : List Transaction) (v : V) :
    applyTxs upd (tx :: l) v = applyTxs upd l (upd tx v) := rfl

theorem applyTxs_prod_qty : ∀ (l : List Transaction) (v : ProdAcc),
    (applyTxs prodUpd l v).total_qty =
      v.total_qty + (l.map (fun tx => tx.quantity)).sum
  | [], v => by simp [applyTxs]
  | tx :: rest, v => by
    rw [applyTxs_cons, applyTxs_prod_qty rest]
    simp only [prodUpd, List.map_cons, List.sum_cons]
    ring

theorem applyTxs_prod_rev : ∀ (l : List Transaction) (v : ProdAcc),
    (applyTxs prodUpd l v).total_revenue =
      v.total_revenue + (l.map amountOf).sum
  | [], v => by simp [applyTxs]
  | tx :: rest, v => by
    rw [applyTxs_cons, applyTxs_prod_rev rest]
    simp only [prodUpd, List.map_cons, List.sum_cons]
    ring

theorem applyTxs_day_rev : ∀ (l : List Transaction) (v : DayAcc),
    (applyTxs dayUpd l v).revenue = v.revenue + (l.map amountOf).sum
  | [], v => by simp [applyTxs]
  | tx :: rest, v => by
    rw [applyTxs_cons, applyTxs_day_rev rest]
    simp only [dayUpd, List.map_cons, List.sum_cons]
    ring

theorem applyTxs_day_count : ∀ (l : List Transaction) (v : DayAcc),
    (applyTxs dayUpd l v).count = v.count + l.length
  | [], v => by simp [applyTxs]
  | tx :: rest, v => by
    rw [applyTxs_cons, applyTxs_day_count rest]
    simp only [dayUpd, List.length_cons]
    omega

theorem sum_map_foldGroup {V M : Type} [AddCommMonoid M]
    (key : Transaction → String) (upd : Transaction → V → V) (v0 : V)
    (f : V → M) (c : Transaction → M)
    (hupd : ∀ tx v, f (upd tx v) = f v + c tx) (h0 : f v0 = 0) :
    ∀ (ts : List Transaction) (acc : List (String × V)),
      ((foldGroup key upd v0 ts acc).map (fun p => f p.2)).sum =
        (acc.map (fun p => f p.2)).sum +
          ((ts.filter (fun tx => !(key tx == ""))).map c).sum
  | [], acc => by simp [foldGroup]
  | tx :: rest, acc => by
    by_cases hb : key tx = ""
    · have hf : (!(key tx == "")) = false := by simp [hb]
      simp only [foldGroup, if_pos hb, List.filter_cons, hf, Bool.false_eq_true,
        if_false]
      exact sum_map_foldGroup key upd v0 f c hupd h0 rest acc
    · have hf : (!(key tx == "")) = true := by simp [hb]
      simp only [foldGroup, if_neg hb, List.filter_cons, hf, if_true,
        List.map_cons, List.sum_cons]
      rw [sum_map_foldGroup key upd v0 f c hupd h0 rest _,
        sum_map_updAssoc f (c tx) (key tx) (upd tx) v0 (fun v => hupd tx v) h0 acc]
      rw [add_assoc, add_comm (c tx)]

/-- The amounts that the grand total of `region_wise_sales` accumulates:
one per record with a non-blank region. -/
def regionAmtSum (ts : List Transaction) : ℚ :=
  ((ts.filter (fun tx => !(regionKey tx == ""))).map amountOf).sum

theorem regionPass_eq : ∀ (ts : List Transaction)
    (acc : List (String × RegionAcc)) (g : ℚ),
    regionPass ts acc g =
      (foldGroup regionKey regionUpd { total_sales := 0, transaction_count := 0 } ts acc,
       g + regionAmtSum ts)
  | [], acc, g => by simp [regionPass, foldGroup, regionAmtSum]
  | tx :: rest, acc, g => by
    by_cases hb : regionKey tx = ""
    · have hf : (!(regionKey tx == "")) = false := by simp [hb]
      simp only [regionPass, if_pos hb, foldGroup, regionAmtSum, List.filter_cons,
        hf, Bool.false_eq_true, if_false]
      exact regionPass_eq rest acc g
    · have hf : (!(regionKey tx == "")) = true := by simp [hb]
      simp only [regionPass, if_neg hb, foldGroup, regionAmtSum, List.filter_cons,
        hf, if_true, List.map_cons, List.sum_cons]
      rw [regionPass_eq rest _ _]
      simp only [regionAmtSum, Prod.mk.injEq, true_and]
      rw [add_assoc]

/-! ## Lemmas about validation -/

theorem validatePhase_fst : ∀ ts : List Transaction,
    (validatePhase ts).1 = ts.filter isValidTx
  | [] => rfl
  | tx :: rest => by
    simp only [validatePhase, List.filter_cons]
    by_cases h : isValidTx tx = true
    · simp [h, validatePhase_fst rest]
    · simp [h, Bool.eq_false_iff.2 h, validatePhase_fst rest]

theorem validatePhase_snd : ∀ ts : List Transaction,
    (validatePhase ts).2 = (ts.filter (fun tx => !(isValidTx tx))).length
  | [] => rfl
  | tx :: rest => by
    simp only [validatePhase, List.filter_cons]
    by_cases h : isValidTx tx = true
    · simp [h, validatePhase_snd rest]
    · simp [h, Bool.eq_false_iff.2 h, validatePhase_snd rest]

theorem foldl_add_amount : ∀ (l : List Transaction) (a : ℚ),
    l.foldl (fun total tx => total + amountOf tx) a = a + (l.map amountOf).sum
  | [], a => by simp
  | tx :: rest, a => by
    simp only [List.foldl_cons, List.map_cons, List.sum_cons,
      foldl_add_amount rest]
    ring

/-! ## Lemmas about the peak-day maximum -/

theorem foldl_pickMax_spec :
    ∀ (xs : List (String × DayAcc)) (best : String × DayAcc),
      ∃ pre post,
        best :: xs =
          pre ++ (xs.foldl (fun b y => if b.2.revenue < y.2.revenue then y else b) best) :: post ∧
        (∀ z ∈ best :: xs,
          z.2.revenue ≤ (xs.foldl (fun b y => if b.2.revenue < y.2.revenue then y else b) best).2.revenue) ∧
        (∀ z ∈ pre,
          z.2.revenue < (xs.foldl (fun b y => if b.2.revenue < y.2.revenue then y else b) best).2.revenue)
  | [], best => by
    refine ⟨[], [], rfl, ?_, by simp⟩
    intro z hz
    rcases List.mem_cons.1 hz with rfl | hz1
    · exact le_refl _
    · exact absurd hz1 (List.not_mem_nil _)
  | y :: ys, best => by
    simp only [List.foldl_cons]
    by_cases hlt : best.2.revenue < y.2.revenue
    · rw [if_pos hlt]
      obtain ⟨pre, post, hdec, hub, hstrict⟩ := foldl_pickMax_spec ys y
      have hym : y.2.revenue ≤ (ys.foldl (fun b y => if b.2.revenue < y.2.revenue then y else b) y).2.revenue :=
        hub y (List.mem_cons_self _ _)
      refine ⟨best :: pre, post, by rw [List.cons_append, ← hdec], ?_, ?_⟩
      · intro z hz
        rcases List.mem_cons.1 hz with rfl | hz1
        · exact le_of_lt (lt_of_lt_of_le hlt hym)
        · exact hub z hz1
      · intro z hz
        rcases List.mem_cons.1 hz with rfl | hz1
        · exact lt_of_lt_of_le hlt hym
        · exact hstrict z hz1
    · rw [if_neg hlt]
      obtain ⟨pre, post, hdec, hub, hstrict⟩ := foldl_pickMax_spec ys best
      have hbm : best.2.revenue ≤ (ys.foldl (fun b y => if b.2.revenue < y.2.revenue then y else b) best).2.revenue :=
        hub best (List.mem_cons_self _ _)
      have hy : y.2.revenue ≤ best.2.revenue := le_of_not_lt hlt
      cases pre with
      | nil =>
        rw [List.nil_append] at hdec
        obtain ⟨hb, hpost⟩ := List.cons.inj hdec
        refine ⟨[], y :: ys, ?_, ?_, by simp⟩
        · rw [List.nil_append, ← hb]
        · intro z hz
          rcases List.mem_cons.1 hz with rfl | hz1
          · exact hbm
          · rcases List.mem_cons.1 hz1 with rfl | hz2
            · exact le_trans hy hbm
            · exact hub z (List.mem_cons_of_mem _ hz2)
      | cons p pre2 =>
        rw [List.cons_append] at hdec
        obtain ⟨hp, hys⟩ := List.cons.inj hdec
        have hpm : p.2.revenue < (ys.foldl (fun b y => if b.2.revenue < y.2.revenue then y else b) best).2.revenue :=
          hstrict p (List.mem_cons_self _ _)
        refine ⟨p :: y :: pre2, post, ?_, ?_, ?_⟩
        · rw [← hp, List.cons_append, List.cons_append, ← hys]
        · intro z hz
          rcases List.mem_cons.1 hz with rfl | hz1
          · exact hbm
          · rcases List.mem_cons.1 hz1 with rfl | hz2
            · exact le_trans hy hbm
            · exact hub z (List.mem_cons_of_mem _ hz2)
        · intro z hz
          rcases List.mem_cons.1 hz with rfl | hz1
          · exact hpm
          · rcases List.mem_cons.1 hz1 with rfl | hz2
            · exact lt_of_le_of_lt (le_trans hy (hp ▸ le_refl best.2.revenue)) hpm
            · exact hstrict z (List.mem_cons_of_mem _ hz2)

theorem pickMaxRev_spec (l : List (String × DayAcc)) (hl : l ≠ []) :
    ∃ m pre post, pickMaxRev l = some m ∧ l = pre ++ m :: post ∧
      (∀ z ∈ l, z.2.revenue ≤ m.2.revenue) ∧
      (∀ z ∈ pre, z.2.revenue < m.2.revenue) := by
  cases l with
  | nil => exact absurd rfl hl
  | cons x xs =>
    obtain ⟨pre, post, hdec, hub, hstrict⟩ := foldl_pickMax_spec xs x
    exact ⟨_, pre, post, rfl, hdec, hub, hstrict⟩

/-! ## Lemmas about the parser -/

theorem parseLine_eq_none_of_fields (line : String)
    (h : (splitChar '|' (pyStrip line.data)).length ≠ 8) :
    parseLine line = none := by
  unfold parseLine
  by_cases hb : pyStrip line.data = []
  · rw [if_pos hb]
  · rw [if_neg hb]
    rcases hsp : splitChar '|' (pyStrip line.data) with
        _ | ⟨a0, _ | ⟨a1, _ | ⟨a2, _ | ⟨a3, _ | ⟨a4, _ | ⟨a5, _ | ⟨a6,
          _ | ⟨a7, _ | ⟨a8, tail⟩⟩⟩⟩⟩⟩⟩⟩⟩ <;>
      first
        | rfl
        | (rw [hsp] at h; simp at h)

theorem parseLine_eq_none_of_numeric (line : String)
    (p0 p1 p2 p3 p4 p5 p6 p7 : List Char)
    (hsp : splitChar '|' (pyStrip line.data) = [p0, p1, p2, p3, p4, p5, p6, p7])
    (hnum : toIntPy ((pyStrip p4).filter (fun c => c ≠ ',')) = none ∨
            toRatPy ((pyStrip p5).filter (fun c => c ≠ ',')) = none) :
    parseLine line = none := by
  unfold parseLine
  by_cases hb : pyStrip line.data = []
  · rw [if_pos hb]
  · rw [if_neg hb, hsp]
    show (match toIntPy ((pyStrip p4).filter (fun c => c ≠ ',')),
            toRatPy ((pyStrip p5).filter (fun c => c ≠ ',')) with
          | some q, some up =>
            some ({ transactionID := ⟨pyStrip p0⟩, date := ⟨pyStrip p1⟩,
                    productID := ⟨pyStrip p2⟩,
                    productName :=
                      ⟨pyStrip ((pyStrip p3).map (fun c => if c = ',' then ' ' else c))⟩,
                    quantity := q, unitPrice := up,
                    customerID := ⟨pyStrip p6⟩, region := ⟨pyStrip p7⟩ } : Transaction)
          | _, _ => none) = none
    rcases hnum with h | h
    · rw [h]
    · rcases h4 : toIntPy ((pyStrip p4).filter (fun c => c ≠ ',')) with _ | q
      · rfl
      · rw [h]

theorem parse_transactions_drop (pre post : List String) (line : String)
    (h : parseLine line = none) :
    parse_transactions (pre ++ line :: post) = parse_transactions (pre ++ post) := by
  unfold parse_transactions
  rw [List.filterMap_append, List.filterMap_append, List.filterMap_cons, h]

theorem splitChar_length (sep : Char) :
    ∀ l : List Char, (splitChar sep l).length = l.count sep + 1
  | [] => by simp [splitChar]
  | c :: cs => by
    have ih := splitChar_length sep cs
    simp only [splitChar]
    rcases hsp : splitChar sep cs with _ | ⟨p, ps⟩
    · rw [hsp] at ih
      simp at ih
    · rw [hsp] at ih
      simp only [List.length_cons] at ih
      by_cases hc : c = sep
      · subst hc
        simp only [if_pos rfl, List.length_cons, List.count_cons, beq_self_eq_true,
          if_true]
        omega
      · have hcb : (c == sep) = false := by
          rw [beq_eq_false_iff_ne]
          exact hc
        simp only [if_neg hc, List.length_cons, List.count_cons, hcb,
          Bool.false_eq_true, if_false]
        omega

theorem count_dropWhile_isPySpace (c : Char) (hc : isPySpace c = false) :
    ∀ l : List Char, (l.dropWhile isPySpace).count c = l.count c
  | [] => rfl
  | x :: xs => by
    rw [List.dropWhile_cons]
    by_cases hx : isPySpace x = true
    · have hxc : (x == c) = false := by
        rw [beq_eq_false_iff_ne]
        intro e
        subst e
        rw [hx] at hc
        cases hc
      rw [if_pos hx, count_dropWhile_isPySpace c hc xs, List.count_cons, hxc]
      simp
    · rw [if_neg hx]

theorem count_pyStrip (c : Char) (hc : isPySpace c = false) (l : List Char) :
    (pyStrip l).count c = l.count c := by
  unfold pyStrip
  rw [List.count_reverse, count_dropWhile_isPySpace c hc, List.count_reverse,
    count_dropWhile_isPySpace c hc]

theorem count_pipe_joinPipe :
    ∀ l : List String, l.length ≤ ((joinPipe l).data.count '|') + 1
  | [] => by simp
  | [s] => by simp [joinPipe]
  | s :: s2 :: rest => by
    have ih := count_pipe_joinPipe (s2 :: rest)
    show (s2 :: rest).length + 1 ≤ _
    simp only [joinPipe, String.data_append, List.count_append]
    have hpipe : List.count '|' (['|'] : List Char) = 1 := by decide
    omega

/-! ## Lemmas about validation counts -/

theorem validatePhase_len : ∀ ts : List Transaction,
    (validatePhase ts).2 + (validatePhase ts).1.length = ts.length
  | [] => rfl
  | tx :: rest => by
    have ih := validatePhase_len rest
    simp only [validatePhase]
    by_cases h : isValidTx tx = true
    · simp only [if_pos h, List.length_cons]
      omega
    · simp only [if_neg h, List.length_cons]
      omega

theorem validate_and_filter_no_filters (ts : List Transaction) :
    (validate_and_filter ts none none none).1 = (validatePhase ts).1 := rfl

/-! ## Concrete records used by the specification's scenarios -/

/-- The record of the enrichment scenario, as parsed from
`T001|2024-12-01|P101|Laptop|2|45000|C001|North`. -/
def txW : Transaction :=
  { transactionID := "T001", date := "2024-12-01", productID := "P101",
    productName := "Laptop", quantity := 2, unitPrice := 45000,
    customerID := "C001", region := "North" }

/-- The value `4.7` as a kernel-normal rational (`47/10` in lowest terms). -/
def ratingW : ℚ := ⟨47, 10, by decide, by decide⟩

/-- The product mapping of the enrichment scenario:
`{101: {category: "laptops", brand: "Apple", rating: 4.7}}`. -/
def mapW : List (Nat × ApiInfo) :=
  [(101, { title := none, category := some "laptops", brand := some "Apple",
           rating := some ratingW })]

/-- A parsed record with `Quantity = 0` and every other field valid. -/
def txQ0 : Transaction :=
  { transactionID := "T009", date := "2024-12-05", productID := "P109",
    productName := "Webcam", quantity := 0, unitPrice := 3000,
    customerID := "C009", region := "South" }

/-! ## The validation rules as the specification states them -/

/-- The validation rule set as the specification phrases it: all 8
fields present (structurally guaranteed for a typed record) and
non-blank, `TransactionID`/`ProductID`/`CustomerID` prefix checks,
`Quantity`/`UnitPrice` numerically convertible (structurally guaranteed)
and strictly positive. -/
def specValid (tx : Transaction) : Prop :=
  pyStrip tx.transactionID.data ≠ [] ∧ pyStrip tx.date.data ≠ [] ∧
  pyStrip tx.productID.data ≠ [] ∧ pyStrip tx.productName.data ≠ [] ∧
  pyStrip tx.customerID.data ≠ [] ∧ pyStrip tx.region.data ≠ [] ∧
  startsWithChar 'T' tx.transactionID.data = true ∧
  startsWithChar 'P' tx.productID.data = true ∧
  startsWithChar 'C' tx.customerID.data = true ∧
  0 < tx.quantity ∧ 0 < tx.unitPrice

instance (tx : Transaction) : Decidable (specValid tx) := by
  unfold specValid
  infer_instance

theorem isValidTx_iff (tx : Transaction) : isValidTx tx = true ↔ specValid tx := by
  simp [isValidTx, specValid, List.isEmpty_iff, and_assoc]

theorem isValidTx_eq_decide (tx : Transaction) :
    isValidTx tx = decide (specValid tx) := by
  by_cases hs : specValid tx
  · rw [(isValidTx_iff tx).2 hs, decide_eq_true hs]
  · rcases hv : isValidTx tx with _ | _
    · rw [decide_eq_false hs]
    · exact absurd ((isValidTx_iff tx).1 hv) hs

/-! ## C1 -/

/-- Claim C1: for every parsed record list, `calculate_total_revenue`
applied to the validation survivors equals the sum of
`Quantity * UnitPrice` over exactly the records that survive validation:
every surviving record contributes its amount and nothing else
contributes. -/
theorem C1_total_revenue_exact (ts : List Transaction) :
    calculate_total_revenue ((validate_and_filter ts none none none).1) =
      ((ts.filter isValidTx).map (fun tx => (tx.quantity : ℚ) * tx.unitPrice)).sum ∧
    (validate_and_filter ts none none none).1 = ts.filter isValidTx := by
  have h1 : (validate_and_filter ts none none none).1 = ts.filter isValidTx := by
    rw [validate_and_filter_no_filters, validatePhase_fst]
  refine ⟨?_, h1⟩
  rw [h1]
  unfold calculate_total_revenue
  rw [foldl_add_amount, zero_add]
  rfl

/-! ## C6 -/

/-- Claim C6: the validation phase of `validate_and_filter` accepts a
parsed record into the valid set iff it satisfies the specification's
rule set (`specValid`), every failing record is counted invalid exactly
once and excluded (`invalid + |valid| = |input|`), and in particular a
record with `Quantity = 0` is never accepted. -/
theorem C6_validate_accepts_iff (ts : List Transaction) :
    (validatePhase ts).1 = ts.filter (fun tx => decide (specValid tx)) ∧
    (validatePhase ts).2 =
      (ts.filter (fun tx => !(decide (specValid tx)))).length ∧
    (validatePhase ts).2 + (validatePhase ts).1.length = ts.length ∧
    (∀ tx ∈ ts, tx.quantity = 0 → tx ∉ (validatePhase ts).1) := by
  have h1 : (validatePhase ts).1 = ts.filter (fun tx => decide (specValid tx)) := by
    rw [validatePhase_fst]
    exact List.filter_congr (fun tx _ => isValidTx_eq_decide tx)
  refine ⟨h1, ?_, validatePhase_len ts, ?_⟩
  · rw [validatePhase_snd]
    congr 1
    exact List.filter_congr (fun tx _ => by rw [isValidTx_eq_decide tx])
  · intro tx _ h0 hmem
    rw [h1] at hmem
    have hs : specValid tx := of_decide_eq_true (List.mem_filter.1 hmem).2
    have := hs.2.2.2.2.2.2.2.2.2.1
    omega

/-- Witness for C6: the `Quantity = 0` scenario — the record is rejected
and the invalid counter reads 1. -/
theorem C6_witness :
    txQ0 ∉ (validatePhase [txQ0]).1 ∧ (validatePhase [txQ0]).2 = 1 :=
  ⟨(C6_validate_accepts_iff [txQ0]).2.2.2 txQ0 (List.mem_cons_self _ _) rfl,
   by decide⟩

/-! ## C9 -/

/-- Claim C9: `parse_transactions` is total (it is a Lean function) and
malformed input only yields fewer records: the output is never longer
than the input; a line that does not split into exactly 8 pipe-separated
fields is dropped and the remaining lines parse as if it were absent (so
it never reaches the validator or any count); likewise a line whose
quantity or unit-price field fails numeric conversion after comma
stripping. -/
theorem C9_parse_safety (lines pre post : List String) (line : String) :
    (parse_transactions lines).length ≤ lines.length ∧
    ((splitChar '|' (pyStrip line.data)).length ≠ 8 →
      parse_transactions (pre ++ line :: post) = parse_transactions (pre ++ post)) ∧
    (∀ p0 p1 p2 p3 p4 p5 p6 p7 : List Char,
      splitChar '|' (pyStrip line.data) = [p0, p1, p2, p3, p4, p5, p6, p7] →
      (toIntPy ((pyStrip p4).filter (fun c => c ≠ ',')) = none ∨
       toRatPy ((pyStrip p5).filter (fun c => c ≠ ',')) = none) →
      parse_transactions (pre ++ line :: post) = parse_transactions (pre ++ post)) :=
  ⟨List.length_filterMap_le _ _,
   fun h => parse_transactions_drop pre post line (parseLine_eq_none_of_fields line h),
   fun p0 p1 p2 p3 p4 p5 p6 p7 hsp hnum =>
     parse_transactions_drop pre post line
       (parseLine_eq_none_of_numeric line p0 p1 p2 p3 p4 p5 p6 p7 hsp hnum)⟩

/-- Witness for C9: a 7-field line (missing Region) and a line with a
non-numeric quantity are both dropped, leaving only the good record. -/
theorem C9_witness :
    parse_transactions
        ["T001|2024-12-01|P101|Laptop|2|45000|C001|North",
         "T002|2024-12-02|P102|Mouse|1|500|C002"] =
      parse_transactions ["T001|2024-12-01|P101|Laptop|2|45000|C001|North"] ∧
    parse_transactions
        ["T001|2024-12-01|P101|Laptop|2|45000|C001|North",
         "T003|2024-12-03|P103|Desk|x|100|C003|South"] =
      parse_transactions ["T001|2024-12-01|P101|Laptop|2|45000|C001|North"] := by
  constructor
  · have h := (C9_parse_safety []
      ["T001|2024-12-01|P101|Laptop|2|45000|C001|North"] []
      "T002|2024-12-02|P102|Mouse|1|500|C002").2.1 (by decide)
    simpa using h
  · have h := (C9_parse_safety []
      ["T001|2024-12-01|P101|Laptop|2|45000|C001|North"] []
      "T003|2024-12-03|P103|Desk|x|100|C003|South").2.2
      "T003".data "2024-12-03".data "P103".data "Desk".data "x".data
      "100".data "C003".data "South".data (by decide) (Or.inl (by decide))
    simpa using h

/-! ## C10 -/

theorem regionStage_spec (valid : List Transaction) (region : Option String) :
    (regionStage valid region).2 = valid.length - (regionStage valid region).1.length ∧
    (regionStage valid region).1.length ≤ valid.length := by
  rcases region with _ | r
  · constructor
    · simp [regionStage]
    · exact le_refl _
  · by_cases hr : r = ""
    · constructor
      · simp [regionStage, hr]
      · simp [regionStage, hr]
    · constructor
      · simp only [regionStage, if_neg hr]
      · simp only [regionStage, if_neg hr]
        exact List.length_filter_le _ _

theorem amountStage_spec (f1 : List Transaction) (min_amount max_amount : Option ℚ) :
    (amountStage f1 min_amount max_amount).2 =
      f1.length - (amountStage f1 min_amount max_amount).1.length ∧
    (amountStage f1 min_amount max_amount).1.length ≤ f1.length := by
  unfold amountStage
  by_cases hm : (min_amount.isSome || max_amount.isSome) = true
  · constructor
    · simp only [hm, if_true]
    · simp only [hm, if_true]
      exact List.length_filter_le _ _
  · constructor
    · rw [if_neg hm]
      simp
    · rw [if_neg hm]

/-- Claim C10: the filter summary of `validate_and_filter` satisfies the
conservation equation
`total_input = invalid + filtered_by_region + filtered_by_amount + final_count`,
`final_count` is the length of the returned record list, and the
returned `invalid_count` component agrees with the summary's `invalid`. -/
theorem C10_summary_conservation (ts : List Transaction)
    (region : Option String) (min_amount max_amount : Option ℚ) :
    (validate_and_filter ts region min_amount max_amount).2.2.total_input =
        (validate_and_filter ts region min_amount max_amount).2.2.invalid +
        (validate_and_filter ts region min_amount max_amount).2.2.filtered_by_region +
        (validate_and_filter ts region min_amount max_amount).2.2.filtered_by_amount +
        (validate_and_filter ts region min_amount max_amount).2.2.final_count ∧
    (validate_and_filter ts region min_amount max_amount).2.2.final_count =
        (validate_and_filter ts region min_amount max_amount).1.length ∧
    (validate_and_filter ts region min_amount max_amount).2.1 =
        (validate_and_filter ts region min_amount max_amount).2.2.invalid := by
  have hvp := validatePhase_len ts
  have hr := regionStage_spec (validatePhase ts).1 region
  have ha := amountStage_spec (regionStage (validatePhase ts).1 region).1
    min_amount max_amount
  refine ⟨?_, rfl, rfl⟩
  show ts.length = (validatePhase ts).2 +
      (regionStage (validatePhase ts).1 region).2 +
      (amountStage (regionStage (validatePhase ts).1 region).1 min_amount max_amount).2 +
      (amountStage (regionStage (validatePhase ts).1 region).1 min_amount max_amount).1.length
  omega

/-! ## C7 -/

/-- Claim C7: `enrich_sales_data` extracts the numeric id by stripping the
leading `P` and requiring an all-digit remainder; on a mapping hit the
enriched record carries the mapping's category, brand and rating with
`API_Match = true`; on a miss — unparseable id, missing key, or empty
mapping — the three fields are null with `API_Match = false`; the
original record is never mutated. -/
theorem C7_enrich_spec (t : Transaction) (m : List (Nat × ApiInfo)) :
    (enrichOne t m).tx = t ∧
    (∀ nid info, numericId t.productID = some nid → lookupA nid m = some info →
      enrichOne t m =
        { tx := t, apiCategory := info.category, apiBrand := info.brand,
          apiRating := info.rating, apiMatch := true }) ∧
    ((numericId t.productID).bind (fun nid => lookupA nid m) = none →
      enrichOne t m =
        { tx := t, apiCategory := none, apiBrand := none, apiRating := none,
          apiMatch := false }) ∧
    (m = [] → (enrichOne t m).apiMatch = false) ∧
    enrich_sales_data [t] m = [enrichOne t m] := by
  refine ⟨?_, ?_, ?_, ?_, rfl⟩
  · rcases hn : numericId t.productID with _ | nid
    · simp [enrichOne, hn]
    · rcases hl : lookupA nid m with _ | info
      · simp [enrichOne, hn, hl]
      · simp [enrichOne, hn, hl]
  · intro nid info hn hl
    simp [enrichOne, hn, hl]
  · intro hb
    rcases hn : numericId t.productID with _ | nid
    · simp [enrichOne, hn]
    · rw [hn, Option.some_bind] at hb
      simp [enrichOne, hn, hb]
  · intro hm
    subst hm
    rcases hn : numericId t.productID with _ | nid
    · simp [enrichOne, hn]
    · simp [enrichOne, hn, lookupA]

/-- Witness for C7: the scenario line
`T001|2024-12-01|P101|Laptop|2|45000|C001|North` with mapping
`{101: {category: "laptops", brand: "Apple", rating: 4.7}}` parses to
`txW` and enriches to `API_Category = "laptops"`, `API_Brand = "Apple"`,
`API_Rating = 4.7`, `API_Match = true`, with amount 90000. -/
theorem C7_witness :
    parse_transactions ["T001|2024-12-01|P101|Laptop|2|45000|C001|North"] = [txW] ∧
    (enrichOne txW mapW).apiCategory = some "laptops" ∧
    (enrichOne txW mapW).apiBrand = some "Apple" ∧
    (enrichOne txW mapW).apiRating = some ratingW ∧ ratingW = 47 / 10 ∧
    (enrichOne txW mapW).apiMatch = true ∧
    (txW.quantity : ℚ) * txW.unitPrice = 90000 := by
  have h := (C7_enrich_spec txW mapW).2.1 101
    { title := none, category := some "laptops", brand := some "Apple",
      rating := some ratingW } (by decide) (by decide)
  refine ⟨by decide, by rw [h], by rw [h], by rw [h], ?_, by rw [h], ?_⟩
  · rw [ratingW, Rat.mk'_eq_divInt, Rat.divInt_eq_div]
    norm_num
  · show ((2 : Int) : ℚ) * (45000 : ℚ) = 90000
    norm_num

/-! ## C8 -/

theorem parseLine_of_saved_row (e : Enriched) :
    parseLine (joinPipe (rowOf e)) = none := by
  apply parseLine_eq_none_of_fields
  rw [splitChar_length, count_pyStrip '|' (by decide)]
  have h12 : (rowOf e).length = 12 := rfl
  have hc := count_pipe_joinPipe (rowOf e)
  omega

/-- Claim C8, corrected: every line that
`save_enriched_data` writes — the header and each 12-column row — splits
into more than 8 pipe-separated fields, so `parse_transactions` drops
every one of them and re-parsing the enriched file yields no records at
all. -/
theorem C8_roundtrip_amended (recs : List Enriched) :
    parse_transactions (saveEnrichedLines recs) = [] := by
  unfold parse_transactions saveEnrichedLines
  rw [List.filterMap_eq_nil_iff]
  intro line hline
  rcases List.mem_cons.1 hline with rfl | hline1
  · decide
  · obtain ⟨e, _, rfl⟩ := List.mem_map.1 hline1
    exact parseLine_of_saved_row e

/-- Counterexample to claim C8 as stated: one enriched record is written, but
re-parsing the written lines yields the empty list, so no field values
are reproduced. -/
theorem C8_roundtrip_cex :
    parse_transactions (saveEnrichedLines [enrichOne txW mapW]) = [] ∧
    saveEnrichedLines [enrichOne txW mapW] =
      [enrichedHeader,
       "T001|2024-12-01|P101|Laptop|2|45000.0|C001|North|laptops|Apple|4.7|True"] ∧
    ([enrichOne txW mapW] : List Enriched).length = 1 := by
  refine ⟨by decide, by decide, rfl⟩

/-! ## C3 and C4: product aggregation -/

/-- Total quantity attributed to a product name: summed over the records
whose trimmed product name equals it. -/
def sumQtyFor (ts : List Transaction) (name : String) : Int :=
  ((ts.filter (fun tx => prodKey tx == name)).map (fun tx => tx.quantity)).sum

/-- Total revenue attributed to a product name. -/
def sumRevFor (ts : List Transaction) (name : String) : ℚ :=
  ((ts.filter (fun tx => prodKey tx == name)).map amountOf).sum

theorem productPass_lookup (ts : List Transaction) (k : String) (hk : ¬ k = "")
    (v : ProdAcc) (h : lookupA k (productPass ts) = some v) :
    v.total_qty = sumQtyFor ts k ∧ v.total_revenue = sumRevFor ts k ∧
      ts.filter (fun tx => prodKey tx == k) ≠ [] := by
  unfold productPass at h
  rw [lookupA_foldGroup_none prodKey prodUpd _ k hk ts [] rfl] at h
  by_cases he : (ts.filter (fun tx => prodKey tx == k)).isEmpty = true
  · rw [if_pos he] at h
    cases h
  · rw [if_neg he] at h
    cases Option.some.inj h
    refine ⟨?_, ?_, by simpa using he⟩
    · rw [applyTxs_prod_qty]
      simp [sumQtyFor]
    · rw [applyTxs_prod_rev]
      simp [sumRevFor]

theorem productPass_mem (ts : List Transaction) (p : String × ProdAcc)
    (hm : p ∈ productPass ts) :
    p.1 ≠ "" ∧ p.2.total_qty = sumQtyFor ts p.1 ∧
      p.2.total_revenue = sumRevFor ts p.1 ∧ ∃ tx ∈ ts, prodKey tx = p.1 := by
  have hnd := nodup_map_fst_foldGroup prodKey prodUpd
    ({ total_qty := 0, total_revenue := 0 }) ts
  have hne : p.1 ≠ "" := by
    intro h0
    have hmk : p.1 ∈ (productPass ts).map Prod.fst :=
      List.mem_map.2 ⟨p, hm, rfl⟩
    unfold productPass at hmk
    rw [map_fst_foldGroup] at hmk
    simp only [List.map_nil, List.nil_append] at hmk
    exact blank_not_mem_newKeys _ _ (h0 ▸ hmk)
  have hl : lookupA p.1 (productPass ts) = some p.2 := by
    rcases p with ⟨k, v⟩
    exact lookupA_eq_some_of_mem_nodup _ hnd hm
  obtain ⟨hq, hr, hfil⟩ := productPass_lookup ts p.1 hne p.2 hl
  refine ⟨hne, hq, hr, ?_⟩
  rcases hfe : ts.filter (fun tx => prodKey tx == p.1) with _ | ⟨tx, rest⟩
  · exact absurd hfe hfil
  · have hmtx : tx ∈ ts.filter (fun t => prodKey t == p.1) := by
      rw [hfe]
      exact List.mem_cons_self _ _
    exact ⟨tx, (List.mem_filter.1 hmtx).1,
      beq_iff_eq.1 ((List.mem_filter.1 hmtx).2)⟩

theorem productPass_complete (ts : List Transaction) (tx : Transaction)
    (hm : tx ∈ ts) (hk : prodKey tx ≠ "") :
    ∃ v, lookupA (prodKey tx) (productPass ts) = some v := by
  unfold productPass
  rw [lookupA_foldGroup_none prodKey prodUpd _ _ hk ts [] rfl]
  have hne : ¬ (ts.filter (fun t => prodKey t == prodKey tx)).isEmpty = true := by
    simp only [List.isEmpty_iff]
    intro hcon
    have hmem : tx ∈ ts.filter (fun t => prodKey t == prodKey tx) :=
      List.mem_filter.2 ⟨hm, by simp⟩
    rw [hcon] at hmem
    exact List.not_mem_nil _ hmem
  rw [if_neg hne]
  exact ⟨_, rfl⟩

theorem gtQtyRev_asym (a b : String × Int × ℚ) (h : gtQtyRev a b = true) :
    gtQtyRev b a = false := by
  simp only [gtQtyRev, Bool.or_eq_true, Bool.and_eq_true, decide_eq_true_eq] at h
  simp only [gtQtyRev, Bool.or_eq_false_iff, Bool.and_eq_false_iff,
    decide_eq_false_iff_not, not_lt]
  rcases h with h1 | ⟨h1, h2⟩
  · exact ⟨le_of_lt h1, Or.inl (by omega)⟩
  · exact ⟨le_of_eq h1.symm, Or.inr (le_of_lt h2)⟩

theorem gtQtyRev_trans (a b c : String × Int × ℚ)
    (h1 : gtQtyRev b a = false) (h2 : gtQtyRev c b = false) :
    gtQtyRev c a = false := by
  simp only [gtQtyRev, Bool.or_eq_false_iff, Bool.and_eq_false_iff,
    decide_eq_false_iff_not, not_lt] at h1 h2 ⊢
  obtain ⟨h1a, h1b⟩ := h1
  obtain ⟨h2a, h2b⟩ := h2
  refine ⟨le_trans h2a h1a, ?_⟩
  by_cases hca : c.2.1 = a.2.1
  · have hba : b.2.1 = a.2.1 := by omega
    have hcb : c.2.1 = b.2.1 := by omega
    have hr1 : b.2.2 ≤ a.2.2 := by
      rcases h1b with h | h
      · exact absurd hba h
      · exact h
    have hr2 : c.2.2 ≤ b.2.2 := by
      rcases h2b with h | h
      · exact absurd hcb h
      · exact h
    exact Or.inr (le_trans hr2 hr1)
  · exact Or.inl hca

theorem ltQtyRev_asym (a b : String × Int × ℚ) (h : ltQtyRev a b = true) :
    ltQtyRev b a = false := by
  simp only [ltQtyRev, Bool.or_eq_true, Bool.and_eq_true, decide_eq_true_eq] at h
  simp only [ltQtyRev, Bool.or_eq_false_iff, Bool.and_eq_false_iff,
    decide_eq_false_iff_not, not_lt]
  rcases h with h1 | ⟨h1, h2⟩
  · exact ⟨le_of_lt h1, Or.inl (by omega)⟩
  · exact ⟨le_of_eq h1, Or.inr (le_of_lt h2)⟩

theorem ltQtyRev_trans (a b c : String × Int × ℚ)
    (h1 : ltQtyRev b a = false) (h2 : ltQtyRev c b = false) :
    ltQtyRev c a = false := by
  simp only [ltQtyRev, Bool.or_eq_false_iff, Bool.and_eq_false_iff,
    decide_eq_false_iff_not, not_lt] at h1 h2 ⊢
  obtain ⟨h1a, h1b⟩ := h1
  obtain ⟨h2a, h2b⟩ := h2
  refine ⟨le_trans h1a h2a, ?_⟩
  by_cases hca : c.2.1 = a.2.1
  · have hab : a.2.1 = b.2.1 := by omega
    have hcb : c.2.1 = b.2.1 := by omega
    have hr1 : a.2.2 ≤ b.2.2 := by
      rcases h1b with h | h
      · exact absurd hab.symm h
      · exact h
    have hr2 : b.2.2 ≤ c.2.2 := by
      rcases h2b with h | h
      · exact absurd hcb h
      · exact h
    exact Or.inr (le_trans hr1 hr2)
  · exact Or.inl hca

/-- Claim C3: `top_selling_products(·, 5)` returns at most 5 entries,
ordered by total quantity descending with total revenue descending as
tie-break (hence quantities are non-increasing), and every returned
entry carries the exact aggregated quantity and revenue of its non-blank
product name, which occurs in the input. -/
theorem C3_top_products (ts : List Transaction) :
    (top_selling_products ts 5).length ≤ 5 ∧
    (top_selling_products ts 5).Pairwise
      (fun a b => b.2.1 < a.2.1 ∨ (b.2.1 = a.2.1 ∧ b.2.2 ≤ a.2.2)) ∧
    (top_selling_products ts 5).Pairwise (fun a b => b.2.1 ≤ a.2.1) ∧
    ∀ e ∈ top_selling_products ts 5,
      e.1 ≠ "" ∧ e.2.1 = sumQtyFor ts e.1 ∧ e.2.2 = sumRevFor ts e.1 ∧
      ∃ tx ∈ ts, prodKey tx = e.1 := by
  have hsorted := pairwise_sortBy gtQtyRev gtQtyRev_asym gtQtyRev_trans
    ((productPass ts).map (fun p => (p.1, p.2.total_qty, p.2.total_revenue)))
  have hconv : ∀ a b : String × Int × ℚ, gtQtyRev b a = false →
      (b.2.1 < a.2.1 ∨ (b.2.1 = a.2.1 ∧ b.2.2 ≤ a.2.2)) := by
    intro a b h
    simp only [gtQtyRev, Bool.or_eq_false_iff, Bool.and_eq_false_iff,
      decide_eq_false_iff_not, not_lt] at h
    obtain ⟨h1, h2⟩ := h
    rcases lt_or_eq_of_le h1 with hlt | heq
    · exact Or.inl hlt
    · rcases h2 with h | h
      · exact absurd heq h
      · exact Or.inr ⟨heq, h⟩
  have hpw : (top_selling_products ts 5).Pairwise
      (fun a b => b.2.1 < a.2.1 ∨ (b.2.1 = a.2.1 ∧ b.2.2 ≤ a.2.2)) := by
    unfold top_selling_products
    exact (List.Pairwise.sublist (List.take_sublist 5 _) hsorted).imp
      (fun h => hconv _ _ h)
  refine ⟨?_, hpw, hpw.imp ?_, ?_⟩
  · unfold top_selling_products
    exact (List.length_take 5 _) ▸ min_le_left _ _
  · intro a b h
    rcases h with h | ⟨h, _⟩
    · exact le_of_lt h
    · exact le_of_eq h
  · intro e he
    have hmem : e ∈ sortBy gtQtyRev
        ((productPass ts).map (fun p => (p.1, p.2.total_qty, p.2.total_revenue))) := by
      unfold top_selling_products at he
      exact (List.take_sublist 5 _).subset he
    have hmem2 : e ∈ (productPass ts).map
        (fun p => (p.1, p.2.total_qty, p.2.total_revenue)) :=
      ((sortBy_perm gtQtyRev _).mem_iff).1 hmem
    obtain ⟨p, hp, rfl⟩ := List.mem_map.1 hmem2
    obtain ⟨hne, hq, hr, htx⟩ := productPass_mem ts p hp
    exact ⟨hne, hq, hr, htx⟩

/-- Witness for C3: a single-record input yields one entry, carrying the
record's product name, quantity and amount as its exact aggregates. -/
theorem C3_witness :
    (top_selling_products [txW] 5).length ≤ 5 ∧
    (prodKey txW, txW.quantity, amountOf txW) ∈ top_selling_products [txW] 5 ∧
    txW.quantity = sumQtyFor [txW] (prodKey txW) ∧
    amountOf txW = sumRevFor [txW] (prodKey txW) := by
  have htop : top_selling_products [txW] 5 =
      [(prodKey txW, txW.quantity, amountOf txW)] := by
    unfold top_selling_products productPass
    simp only [foldGroup, if_neg (by decide : ¬ prodKey txW = ""), updAssoc,
      prodUpd, zero_add, List.map_cons, List.map_nil, sortBy, insertSorted,
      List.take]
  have hmem : (prodKey txW, txW.quantity, amountOf txW) ∈
      top_selling_products [txW] 5 := by
    rw [htop]
    exact List.mem_cons_self _ _
  have h := (C3_top_products [txW]).2.2.2 _ hmem
  exact ⟨(C3_top_products [txW]).1, hmem, h.2.1, h.2.2.1⟩

theorem map_fst_low_sublist (th : Int) :
    ∀ l : List (String × ProdAcc),
      ((l.filterMap (fun p =>
          if p.2.total_qty < th then some (p.1, p.2.total_qty, p.2.total_revenue)
          else none)).map Prod.fst).Sublist (l.map Prod.fst)
  | [] => List.Sublist.refl _
  | p :: rest => by
    rw [List.filterMap_cons]
    by_cases h : p.2.total_qty < th
    · rw [if_pos h]
      simp only [List.map_cons]
      exact (map_fst_low_sublist th rest).cons₂ _
    · rw [if_neg h]
      exact (map_fst_low_sublist th rest).cons _

/-- Claim C4: `low_performing_products(·, 10)` returns exactly the
products whose aggregated quantity is strictly below 10 — every entry
carries the exact aggregated quantity (< 10) and revenue of its
non-blank name, names are pairwise distinct, every qualifying product
appears — sorted by quantity ascending with revenue ascending
tie-break. -/
theorem C4_low_products (ts : List Transaction) :
    (low_performing_products ts 10).Pairwise
      (fun a b => a.2.1 < b.2.1 ∨ (a.2.1 = b.2.1 ∧ a.2.2 ≤ b.2.2)) ∧
    ((low_performing_products ts 10).map Prod.fst).Nodup ∧
    (∀ e ∈ low_performing_products ts 10,
      e.1 ≠ "" ∧ e.2.1 = sumQtyFor ts e.1 ∧ e.2.2 = sumRevFor ts e.1 ∧
      e.2.1 < 10 ∧ ∃ tx ∈ ts, prodKey tx = e.1) ∧
    (∀ tx ∈ ts, prodKey tx ≠ "" → sumQtyFor ts (prodKey tx) < 10 →
      ∃ e ∈ low_performing_products ts 10, e.1 = prodKey tx) := by
  have hconv : ∀ a b : String × Int × ℚ, ltQtyRev b a = false →
      (a.2.1 < b.2.1 ∨ (a.2.1 = b.2.1 ∧ a.2.2 ≤ b.2.2)) := by
    intro a b h
    simp only [ltQtyRev, Bool.or_eq_false_iff, Bool.and_eq_false_iff,
      decide_eq_false_iff_not, not_lt] at h
    obtain ⟨h1, h2⟩ := h
    rcases lt_or_eq_of_le h1 with hlt | heq
    · exact Or.inl hlt
    · rcases h2 with h | h
      · exact absurd heq.symm h
      · exact Or.inr ⟨heq, h⟩
  refine ⟨?_, ?_, ?_, ?_⟩
  · unfold low_performing_products
    exact (pairwise_sortBy ltQtyRev ltQtyRev_asym ltQtyRev_trans _).imp
      (fun h => hconv _ _ h)
  · unfold low_performing_products
    have hnd := nodup_map_fst_foldGroup prodKey prodUpd
      ({ total_qty := 0, total_revenue := 0 }) ts
    have hsub := (map_fst_low_sublist 10 (productPass ts)).nodup
      (by exact hnd)
    exact (((sortBy_perm ltQtyRev _).map Prod.fst).nodup_iff).2 hsub
  · intro e he
    have hmem2 : e ∈ (productPass ts).filterMap (fun p =>
        if p.2.total_qty < 10 then some (p.1, p.2.total_qty, p.2.total_revenue)
        else none) := by
      unfold low_performing_products at he
      exact ((sortBy_perm ltQtyRev _).mem_iff).1 he
    obtain ⟨p, hp, hfe⟩ := List.mem_filterMap.1 hmem2
    by_cases hlt : p.2.total_qty < 10
    · rw [if_pos hlt] at hfe
      cases hfe
      obtain ⟨hne, hq, hr, htx⟩ := productPass_mem ts p hp
      exact ⟨hne, hq, hr, hq ▸ hlt, htx⟩
    · rw [if_neg hlt] at hfe
      cases hfe
  · intro tx hm hk hq
    obtain ⟨v, hv⟩ := productPass_complete ts tx hm hk
    obtain ⟨hq', _, _⟩ := productPass_lookup ts (prodKey tx) hk v hv
    have hmemp : (prodKey tx, v) ∈ productPass ts :=
      mem_of_lookupA_eq_some _ _ _ hv
    have hlow : (prodKey tx, v.total_qty, v.total_revenue) ∈
        (productPass ts).filterMap (fun p =>
          if p.2.total_qty < 10 then some (p.1, p.2.total_qty, p.2.total_revenue)
          else none) :=
      List.mem_filterMap.2 ⟨(prodKey tx, v), hmemp, by
        rw [if_pos (by rw [hq']; exact hq)]⟩
    refine ⟨(prodKey tx, v.total_qty, v.total_revenue), ?_, rfl⟩
    unfold low_performing_products
    exact ((sortBy_perm ltQtyRev _).mem_iff).2 hlow

/-- Witness for C4: a single record with quantity 2 < 10 yields its
product among the low performers. -/
theorem C4_witness :
    (∃ e ∈ low_performing_products [txW] 10, e.1 = prodKey txW) ∧
    sumQtyFor [txW] (prodKey txW) < 10 :=
  ⟨(C4_low_products [txW]).2.2.2 txW (List.mem_cons_self _ _) (by decide)
      (by decide),
   by decide⟩

/-! ## C2: region percentages and ordering -/

theorem abs_round2_sub (q : ℚ) : |round2 q - q| ≤ 1 / 200 := by
  unfold round2
  have h := abs_sub_round (q * 100)
  rw [abs_sub_comm] at h
  have h2 : (round (q * 100) : ℚ) / 100 - q = ((round (q * 100) : ℚ) - q * 100) / 100 := by
    ring
  rw [h2, abs_div, abs_of_pos (by norm_num : (0 : ℚ) < 100)]
  linarith

theorem sum_round2_err : ∀ l : List ℚ,
    |(l.map round2).sum - l.sum| ≤ (l.length : ℚ) * (1 / 200)
  | [] => by simp
  | q :: rest => by
    have ih := sum_round2_err rest
    have h1 := abs_round2_sub q
    simp only [List.map_cons, List.sum_cons, List.length_cons]
    have hsplit : round2 q + (rest.map round2).sum - (q + rest.sum) =
        (round2 q - q) + ((rest.map round2).sum - rest.sum) := by ring
    rw [hsplit]
    calc |(round2 q - q) + ((rest.map round2).sum - rest.sum)|
        ≤ |round2 q - q| + |(rest.map round2).sum - rest.sum| := abs_add _ _
      _ ≤ 1 / 200 + (rest.length : ℚ) * (1 / 200) := add_le_add h1 ih
      _ = ((rest.length + 1 : ℕ) : ℚ) * (1 / 200) := by
          push_cast
          ring

theorem sum_map_mul_const {α : Type} (c : ℚ) (f : α → ℚ) :
    ∀ l : List α, (l.map (fun x => f x * c)).sum = (l.map f).sum * c
  | [] => by simp
  | x :: rest => by
    simp only [List.map_cons, List.sum_cons, sum_map_mul_const c f rest]
    ring

/-- Claim C2: whenever the grand total accumulated by `region_wise_sales`
is positive, the rounded per-region percentages sum to 100 within the
rounding epsilon (1/200 per region, i.e. 0.005 per rounded value), and
the returned entries are ordered by descending `total_sales`. -/
theorem C2_region_stats (ts : List Transaction)
    (hpos : 0 < (regionPass ts [] 0).2) :
    |((region_wise_sales ts).map (fun p => p.2.percentage)).sum - 100| ≤
      ((region_wise_sales ts).length : ℚ) * (1 / 200) ∧
    (region_wise_sales ts).Pairwise
      (fun a b => b.2.total_sales ≤ a.2.total_sales) := by
  have hgne : (regionPass ts [] 0).2 ≠ 0 := ne_of_gt hpos
  have hsum : (((regionPass ts [] 0).1.map (fun p => p.2.total_sales)).sum) =
      (regionPass ts [] 0).2 := by
    have hg : (regionPass ts [] 0).2 = regionAmtSum ts := by
      rw [regionPass_eq]
      exact zero_add _
    have hL : (regionPass ts [] 0).1 =
        foldGroup regionKey regionUpd
          { total_sales := 0, transaction_count := 0 } ts [] := by
      rw [regionPass_eq]
    rw [hL, hg]
    have h := sum_map_foldGroup regionKey regionUpd
      ({ total_sales := 0, transaction_count := 0 }) (fun v => v.total_sales)
      amountOf (fun tx v => rfl) rfl ts []
    simpa [regionAmtSum] using h
  constructor
  · have hperm : (region_wise_sales ts).Perm
        ((regionPass ts [] 0).1.map (fun p =>
          (p.1, { total_sales := p.2.total_sales,
                  transaction_count := p.2.transaction_count,
                  percentage := if 0 < (regionPass ts [] 0).2
                    then round2 (p.2.total_sales / (regionPass ts [] 0).2 * 100)
                    else 0 : RegionStat }))) := sortBy_perm _ _
    have hsum_eq : ((region_wise_sales ts).map (fun p => p.2.percentage)).sum =
        (((regionPass ts [] 0).1.map
          (fun p => p.2.total_sales / (regionPass ts [] 0).2 * 100)).map round2).sum := by
      rw [(hperm.map (fun p => p.2.percentage)).sum_eq, List.map_map, List.map_map]
      apply congrArg
      apply List.map_congr_left
      intro p _
      simp only [Function.comp]
      rw [if_pos hpos]
    have hlen : ((region_wise_sales ts).length : ℚ) =
        (((regionPass ts [] 0).1.map
          (fun p => p.2.total_sales / (regionPass ts [] 0).2 * 100)).length : ℚ) := by
      rw [hperm.length_eq, List.length_map, List.length_map]
    have hexact : (((regionPass ts [] 0).1.map
        (fun p => p.2.total_sales / (regionPass ts [] 0).2 * 100))).sum = 100 := by
      have hpt : ((regionPass ts [] 0).1.map
          (fun p => p.2.total_sales / (regionPass ts [] 0).2 * 100)) =
          ((regionPass ts [] 0).1.map
            (fun p => p.2.total_sales * (100 / (regionPass ts [] 0).2))) := by
        apply List.map_congr_left
        intro p _
        rw [div_mul_eq_mul_div, mul_div_assoc]
      rw [hpt, sum_map_mul_const, hsum, mul_comm, div_mul_cancel₀ _ hgne]
    rw [hsum_eq, hlen]
    have herr := sum_round2_err ((regionPass ts [] 0).1.map
      (fun p => p.2.total_sales / (regionPass ts [] 0).2 * 100))
    rw [hexact] at herr
    exact herr
  · unfold region_wise_sales
    refine (pairwise_sortBy _ ?_ ?_ _).imp ?_
    · intro a b h
      simp only [decide_eq_true_eq] at h
      simp only [decide_eq_false_iff_not, not_lt]
      exact le_of_lt h
    · intro a b c h1 h2
      simp only [decide_eq_false_iff_not, not_lt] at h1 h2 ⊢
      exact le_trans h2 h1
    · intro a b h
      simp only [decide_eq_false_iff_not, not_lt] at h
      exact h

/-- Witness for C2: a one-record input with positive revenue. -/
theorem C2_witness :
    |((region_wise_sales [txW]).map (fun p => p.2.percentage)).sum - 100| ≤
      ((region_wise_sales [txW]).length : ℚ) * (1 / 200) ∧
    (region_wise_sales [txW]).Pairwise
      (fun a b => b.2.total_sales ≤ a.2.total_sales) :=
  C2_region_stats [txW] (by
    rw [regionPass_eq]
    show (0 : ℚ) < 0 + regionAmtSum [txW]
    rw [zero_add]
    unfold regionAmtSum
    rw [List.filter_cons, if_pos (by decide)]
    simp only [List.filter_nil, List.map_cons, List.map_nil, List.sum_cons,
      List.sum_nil, add_zero]
    show (0 : ℚ) < ((2 : Int) : ℚ) * 45000
    norm_num)

/-! ## C5: peak sales day -/

/-- Revenue the claim attributes to a date: summed over the records
whose trimmed date equals it. -/
def sumRevDate (ts : List Transaction) (d : String) : ℚ :=
  ((ts.filter (fun tx => dateKey tx == d)).map amountOf).sum

/-- Number of records the claim attributes to a date. -/
def countDate (ts : List Transaction) (d : String) : Nat :=
  (ts.filter (fun tx => dateKey tx == d)).length

theorem dailyTotals_lookup (ts : List Transaction) (k : String) (hk : ¬ k = "")
    (v : DayAcc) (h : lookupA k (dailyTotals ts) = some v) :
    v.revenue = sumRevDate ts k ∧ v.count = countDate ts k := by
  unfold dailyTotals at h
  rw [lookupA_foldGroup_none dateKey dayUpd _ k hk ts [] rfl] at h
  by_cases he : (ts.filter (fun tx => dateKey tx == k)).isEmpty = true
  · rw [if_pos he] at h
    cases h
  · rw [if_neg he] at h
    cases Option.some.inj h
    constructor
    · rw [applyTxs_day_rev]
      simp [sumRevDate]
    · rw [applyTxs_day_count]
      simp [countDate]

theorem dailyTotals_mem (ts : List Transaction) (p : String × DayAcc)
    (hm : p ∈ dailyTotals ts) :
    p.1 ≠ "" ∧ p.2.revenue = sumRevDate ts p.1 ∧ p.2.count = countDate ts p.1 := by
  have hnd := nodup_map_fst_foldGroup dateKey dayUpd
    ({ revenue := 0, count := 0 }) ts
  have hne : p.1 ≠ "" := by
    intro h0
    have hmk : p.1 ∈ (dailyTotals ts).map Prod.fst := List.mem_map.2 ⟨p, hm, rfl⟩
    unfold dailyTotals at hmk
    rw [map_fst_foldGroup] at hmk
    simp only [List.map_nil, List.nil_append] at hmk
    exact blank_not_mem_newKeys _ _ (h0 ▸ hmk)
  have hl : lookupA p.1 (dailyTotals ts) = some p.2 := by
    rcases p with ⟨k, v⟩
    exact lookupA_eq_some_of_mem_nodup _ hnd hm
  obtain ⟨h1, h2⟩ := dailyTotals_lookup ts p.1 hne p.2 hl
  exact ⟨hne, h1, h2⟩

theorem newKeys_nil_iff : ∀ (l seen : List String),
    newKeys seen l = [] ↔ ∀ k ∈ l, k = "" ∨ k ∈ seen
  | [], seen => by simp [newKeys]
  | k :: ks, seen => by
    by_cases hc : k = "" ∨ k ∈ seen
    · simp only [newKeys, if_pos hc]
      rw [newKeys_nil_iff ks seen]
      constructor
      · intro h k' hk'
        rcases List.mem_cons.1 hk' with rfl | hk2
        · exact hc
        · exact h k' hk2
      · intro h k' hk'
        exact h k' (List.mem_cons_of_mem _ hk')
    · simp only [newKeys, if_neg hc]
      constructor
      · intro h
        cases h
      · intro h
        exact absurd (h k (List.mem_cons_self _ _)) hc

theorem foldGroup_nil_of_blank {V : Type} (key : Transaction → String)
    (upd : Transaction → V → V) (v0 : V) :
    ∀ ts : List Transaction, (∀ tx ∈ ts, key tx = "") →
      foldGroup key upd v0 ts [] = []
  | [], _ => rfl
  | tx :: rest, h => by
    simp only [foldGroup, if_pos (h tx (List.mem_cons_self _ _))]
    exact foldGroup_nil_of_blank key upd v0 rest
      (fun t ht => h t (List.mem_cons_of_mem _ ht))

theorem dailyTotals_nil_iff (ts : List Transaction) :
    dailyTotals ts = [] ↔ ∀ tx ∈ ts, dateKey tx = "" := by
  constructor
  · intro h
    have hk : (dailyTotals ts).map Prod.fst = [] := by
      rw [h]
      rfl
    unfold dailyTotals at hk
    rw [map_fst_foldGroup] at hk
    simp only [List.map_nil, List.nil_append] at hk
    rw [newKeys_nil_iff] at hk
    intro tx htx
    rcases hk (dateKey tx) (List.mem_map_of_mem _ htx) with h1 | h1
    · exact h1
    · exact absurd h1 (List.not_mem_nil _)
  · intro h
    exact foldGroup_nil_of_blank dateKey dayUpd _ ts h

/-- Claim C5: `find_peak_sales_day` returns the sentinel `(None, 0.0, 0)`
when no record has a non-blank date (in particular on empty input);
otherwise it returns `(date, aggregated revenue, record count)` for a
date whose revenue is maximal, and every date earlier in
first-occurrence (insertion) order has strictly smaller revenue — the
first date reaching the maximum wins.  The daily grouping is listed in
first-occurrence order of the dates. -/
theorem C5_peak_day (ts : List Transaction) :
    ((∀ tx ∈ ts, dateKey tx = "") → find_peak_sales_day ts = (none, 0, 0)) ∧
    (dailyTotals ts).map Prod.fst = newKeys [] (ts.map dateKey) ∧
    (dailyTotals ts ≠ [] →
      ∃ d v pre post,
        dailyTotals ts = pre ++ (d, v) :: post ∧
        find_peak_sales_day ts = (some d, v.revenue, v.count) ∧
        v.revenue = sumRevDate ts d ∧ v.count = countDate ts d ∧
        (∀ e ∈ dailyTotals ts, e.2.revenue ≤ v.revenue) ∧
        (∀ e ∈ pre, e.2.revenue < v.revenue)) := by
  refine ⟨?_, ?_, ?_⟩
  · intro h
    unfold find_peak_sales_day
    rw [show dailyTotals ts = [] from (dailyTotals_nil_iff ts).2 h]
    rfl
  · unfold dailyTotals
    rw [map_fst_foldGroup]
    simp
  · intro hne
    obtain ⟨m, pre, post, hpick, hdec, hub, hstrict⟩ :=
      pickMaxRev_spec (dailyTotals ts) hne
    have hmmem : m ∈ dailyTotals ts := by
      rw [hdec]
      exact List.mem_append.2 (Or.inr (List.mem_cons_self _ _))
    obtain ⟨hne1, hrev, hcnt⟩ := dailyTotals_mem ts m hmmem
    refine ⟨m.1, m.2, pre, post, ?_, ?_, hrev, hcnt, hub, hstrict⟩
    · simpa using hdec
    · unfold find_peak_sales_day
      rw [hpick]

/-- Witness for C5: one dated record — the grouping is non-empty and the
peak day is the first (only) date, carrying its exact aggregates. -/
theorem C5_witness :
    dailyTotals [txW] ≠ [] ∧
    ∃ d v pre post,
      dailyTotals [txW] = pre ++ (d, v) :: post ∧
      find_peak_sales_day [txW] = (some d, v.revenue, v.count) ∧
      v.revenue = sumRevDate [txW] d ∧ v.count = countDate [txW] d ∧
      (∀ e ∈ dailyTotals [txW], e.2.revenue ≤ v.revenue) ∧
      (∀ e ∈ pre, e.2.revenue < v.revenue) := by
  have hne : dailyTotals [txW] ≠ [] := by
    unfold dailyTotals
    simp only [foldGroup, if_neg (by decide : ¬ dateKey txW = ""), updAssoc]
    simp
  exact ⟨hne, (C5_peak_day [txW]).2.2 hne⟩

end SalesAnalytics
